import Mathlib

/-!
# go-m3ua example server (`examples/server/m3ua-server.go`)

A shallow embedding of the two functions of the example server:

* `serve`, the per-connection message loop, as a total function from the
  outcomes the connection delivers (a script of `conn.Read` results and the
  results of the successive `conn.Write` calls) to the trace of operations the
  loop performs and the way it stops;
* `main`, the configuration it builds and its accept loop, as a function from
  the outcomes of `listener.Accept` to the trace of the loop, together with an
  interleaving model of the process (`go serve(conn)`).

The connection, the listener and `encoding/hex` are collaborators whose code is
not part of the file; they are modelled by their contracts.
-/

namespace M3uaServer

/-! ## Collaborators -/

/-- Error values returned by the connection. `serve` only ever compares an
error with `io.EOF`, so an error is either that sentinel or something else. -/
inductive ConnErr where
  | eof
  | other (msg : String)
  deriving DecidableEq, Repr

/-- What one call of `conn.Read(buf)` delivers: a message of the peer, or an
error. -/
inductive ReadOutcome where
  | data (bytes : List Nat)
  | fail (err : ConnErr)
  deriving DecidableEq, Repr

/-- An accepted connection as `serve` sees it: its remote address
(`conn.RemoteAddr()`), the outcomes of the successive `conn.Read` calls, and
the error (if any) of the `k`-th `conn.Write` call. -/
structure Conn where
  remoteAddr : String
  reads : List ReadOutcome
  writes : Nat → Option ConnErr

/-- Modelled from the spec: `Conn.Read` is not in the file; spec section 6 gives
the stream contract `read(buffer) → n bytes, fails with {EndOfStream, IOError}`.
A delivered message is copied into the front of `buf` (at most `len(buf)`
bytes) and its length is returned; a failure returns the error and leaves the
buffer alone. The result is `(n, buf, err)`. -/
def connRead (buf : List Nat) : ReadOutcome → Nat × List Nat × Option ConnErr
  | .data bytes =>
      (min bytes.length buf.length, bytes.take buf.length ++ buf.drop bytes.length, none)
  | .fail err => (0, buf, some err)

/-! ## `encoding/hex` -/

/-- Errors of `hex.DecodeString`: `InvalidByteError` and `ErrLength`. -/
inductive HexErr where
  | invalidByte (b : Nat)
  | errLength
  deriving DecidableEq, Repr

/-- The table `reverseHexTable` of `encoding/hex`: the value of a hexadecimal
digit, `0xff` for every other byte. -/
def reverseHexTable (b : Nat) : Nat :=
  if 48 ≤ b ∧ b ≤ 57 then b - 48
  else if 97 ≤ b ∧ b ≤ 102 then b - 97 + 10
  else if 65 ≤ b ∧ b ≤ 70 then b - 65 + 10
  else 0xff

/-- The loop of `hex.Decode`: two source bytes give one output byte; the first
byte that is not a hexadecimal digit stops the decoding with the bytes decoded
so far, and a dangling last digit is `ErrLength`. -/
def hexDecode : List Nat → List Nat × Option HexErr
  | p :: q :: rest =>
      let a := reverseHexTable p
      let b := reverseHexTable q
      if a > 0x0f then ([], some (.invalidByte p))
      else if b > 0x0f then ([], some (.invalidByte q))
      else
        let r := hexDecode rest
        ((((a <<< 4) ||| b) % 256) :: r.1, r.2)
  | [p] =>
      if reverseHexTable p > 0x0f then ([], some (.invalidByte p))
      else ([], some .errLength)
  | [] => ([], none)

/-- The bytes of a string, `[]byte(s)`: its UTF-8 encoding. -/
def stringBytes (s : String) : List Nat :=
  s.toList.flatMap (fun c => (String.utf8EncodeChar c).map UInt8.toNat)

/-- The function `hex.DecodeString`: decodes the bytes of `s`; the result is
`(src[:n], err)`. -/
def DecodeString (s : String) : List Nat × Option HexErr :=
  hexDecode (stringBytes s)

/-! ## `serve` -/

/-- The operations `serve` performs on its connection and on the log. -/
inductive Event where
  /-- The call `n, err := conn.Read(buf)` returned. -/
  | read (n : Nat) (err : Option ConnErr)
  /-- The call `log.Printf("Closed M3UA conn with: %s, waiting to come back...", conn.RemoteAddr())` -/
  | logClosed (remote : String)
  /-- The call `log.Printf("Error reading from M3UA conn: %s", err)` -/
  | logReadError (err : ConnErr)
  /-- The call `log.Printf("Read: %x", buf[:n])` -/
  | logRead (bytes : List Nat)
  /-- The call `conn.Write(msg)` returned `err`. -/
  | write (msg : List Nat) (err : Option ConnErr)
  /-- The call `log.Printf("Failed to write M3UA data: %s", err)` -/
  | logWriteFailed (err : ConnErr)
  /-- The deferred `conn.Close()`. -/
  | close
  deriving DecidableEq, Repr

/-- How a run of `serve` over a finite script stands at the end of the script:
the function has returned, or it is blocked in `conn.Read`. -/
inductive Status where
  | returned
  | blockedInRead
  deriving DecidableEq, Repr

/-- The response literal of `serve`. -/
def data : String :=
  "0901030e1b0b12060012040913320003020d12910111042143658709214305b36481b04904000000006c81a7a281a402010030819e020155308198a00a80086161616161616161a17c0407919099881811f3800435353535861c536f6d654e616d655468617449734c6f6e6765725468616e4e696e65880f4141412d5365727665722d4e616d65891d536f6d654e616d655468617449734c6f6e6765725468616e4e696e65328a1d536f6d654e616d655468617449734c6f6e6765725468616e4e696e65338405048e100305850504c0a80101"

/-- Puts the events of one iteration in front of the rest of the run. -/
def andThen (evs : List Event) (r : List Event × Status) : List Event × Status :=
  (evs ++ r.1, r.2)

/-- The `for` loop of `serve`. `buf` is the read buffer and `w` the number of
`conn.Write` calls made so far. -/
def serveLoop (remote : String) (writes : Nat → Option ConnErr) :
    List ReadOutcome → List Nat → Nat → List Event × Status
  | [], _, _ => ([], .blockedInRead)
  | r :: rs, buf, w =>
      match connRead buf r with
      | (n, _, some err) =>
          if err = ConnErr.eof then
            ([.read n (some err), .logClosed remote], .returned)
          else
            ([.read n (some err), .logReadError err], .returned)
      | (n, buf1, none) =>
          match DecodeString data with
          | (_, some _) =>
              andThen [.read n none, .logRead (buf1.take n)] (serveLoop remote writes rs buf1 w)
          | (msg, none) =>
              match writes w with
              | some err =>
                  andThen [.read n none, .logRead (buf1.take n), .write msg (some err),
                      .logWriteFailed err]
                    (serveLoop remote writes rs buf1 (w + 1))
              | none =>
                  andThen [.read n none, .logRead (buf1.take n), .write msg none]
                    (serveLoop remote writes rs buf1 (w + 1))

/-- The function `serve`: `defer conn.Close()`, a buffer of 1500 bytes, then
the loop. The deferred close runs when the function returns. -/
def serve (conn : Conn) : List Event × Status :=
  match serveLoop conn.remoteAddr conn.writes conn.reads (List.replicate 1500 0) 0 with
  | (evs, .returned) => (evs ++ [.close], .returned)
  | (evs, .blockedInRead) => (evs, .blockedInRead)

/-! ## `main` -/

/-- The struct `m3ua.HeartbeatInfo` as `main` fills it; durations are
`time.Duration` values, in nanoseconds. -/
structure HeartbeatInfo where
  Enabled : Bool
  Interval : Int
  Timer : Int
  deriving DecidableEq, Repr

/-- Modelled from the spec: the type `m3ua.Config` is not in the file; spec
section 3 lists the heartbeat triple and the identity parameters, the ASP
identifier and the correlation ID being optional. The field names are those of
the arguments of `NewServerConfig` in `main`. -/
structure Config where
  HeartbeatInfo : HeartbeatInfo
  OriginatingPointCode : Nat
  DestinationPointCode : Nat
  AspIdentifier : Option Nat
  TrafficModeType : Nat
  NetworkAppearance : Nat
  CorrelationID : Option Nat
  RoutingContexts : List Nat
  ServiceIndicator : Nat
  NetworkIndicator : Nat
  MessagePriority : Nat
  SignalingLinkSelection : Nat
  deriving DecidableEq, Repr

/-- Modelled from the spec: `m3ua.NewServerConfig` is not in the file; by spec
section 3 the Configuration is the set of session parameters supplied at
startup, so the constructor stores the values it is given. -/
def NewServerConfig (hbInfo : M3uaServer.HeartbeatInfo)
    (opc dpc aspID tmt nwApr corrID : Nat) (rtCtxs : List Nat) (si ni mp sls : Nat) : Config :=
  { HeartbeatInfo := hbInfo
    OriginatingPointCode := opc
    DestinationPointCode := dpc
    AspIdentifier := some aspID
    TrafficModeType := tmt
    NetworkAppearance := nwApr
    CorrelationID := some corrID
    RoutingContexts := rtCtxs
    ServiceIndicator := si
    NetworkIndicator := ni
    MessagePriority := mp
    SignalingLinkSelection := sls }

/-- The configuration `main` creates from the flags `hb-interval` and
`hb-timer`. The constants `params.TrafficModeLoadshare` and
`params.ServiceIndSCCP` are not in the file and are parameters. -/
def mainConfig (trafficModeLoadshare serviceIndSCCP : Nat) (hbInt hbTimer : Int) : Config :=
  let config := NewServerConfig
    { Enabled := true, Interval := hbInt, Timer := hbTimer }
    0x22222222 0x11111111 1 trafficModeLoadshare 0 0 [1, 2] serviceIndSCCP 0 0 1
  { config with AspIdentifier := none, CorrelationID := none }

/-- Modelled from the spec: `Listener.Accept` is not in the file; by spec
section 4.1 it fails with `Cancelled` or `TransportFailure`. -/
inductive AcceptErr where
  | cancelled
  | transportFailure (msg : String)
  deriving DecidableEq, Repr

/-- What one call of `listener.Accept(ctx)` delivers. -/
inductive AcceptOutcome where
  | conn (c : Conn)
  | fail (err : AcceptErr)

/-- The operations of `main`. -/
inductive MainEvent where
  /-- The call `log.Fatalf("Failed to resolve SCTP address: %s", err)` -/
  | logFatalResolve (err : String)
  /-- The call `m3ua.Listen("m3ua", laddr, config)` -/
  | listen (config : Config)
  /-- The call `log.Fatalf("Failed to listen: %s", err)` -/
  | logFatalListen (err : String)
  /-- The call `log.Printf("Waiting for connection on: %s", listener.Addr())` -/
  | logWaiting (addr : String)
  /-- The call `listener.Accept(ctx)` returned a connection. -/
  | accepted (c : Conn)
  /-- The call `listener.Accept(ctx)` returned an error. -/
  | acceptFailed (err : AcceptErr)
  /-- The call `log.Fatalf("Failed to accept M3UA: %s", err)` -/
  | logFatalAccept (err : AcceptErr)
  /-- The call `log.Printf("Connected with: %s", conn.RemoteAddr())` -/
  | logConnected (remote : String)
  /-- The statement `go serve(conn)`. -/
  | goServe (c : Conn)

/-- How `main` stands at the end of a finite script: blocked in
`listener.Accept`, terminated by `log.Fatalf` (which exits the process), or
returned from normally. -/
inductive MainStatus where
  | accepting
  | fatal
  | returned
  deriving DecidableEq, Repr

/-- One iteration of the accept loop of `main`: its operations, and the
connection handed to `go serve` unless the iteration ended in `log.Fatalf`. -/
def acceptIter : AcceptOutcome → List MainEvent × Option Conn
  | .fail err => ([.acceptFailed err, .logFatalAccept err], none)
  | .conn c => ([.accepted c, .logConnected c.remoteAddr, .goServe c], some c)

/-- The accept loop of `main` over the outcomes of the successive
`listener.Accept` calls. -/
def acceptLoop : List AcceptOutcome → List MainEvent × MainStatus
  | [] => ([], .accepting)
  | a :: rest =>
      match acceptIter a with
      | (evs, none) => (evs, .fatal)
      | (evs, some _) => (evs ++ (acceptLoop rest).1, (acceptLoop rest).2)

/-- What `main` receives: the two heartbeat flags, the two constants of package
`params`, the errors (if any) of `sctp.ResolveSCTPAddr` and `m3ua.Listen`, the
address of the listener and the outcomes of `listener.Accept`. -/
structure MainEnv where
  hbInt : Int
  hbTimer : Int
  trafficModeLoadshare : Nat
  serviceIndSCCP : Nat
  resolveErr : Option String
  listenErr : Option String
  listenerAddr : String
  accepts : List AcceptOutcome

/-- The function `main`. -/
def main (env : MainEnv) : List MainEvent × MainStatus :=
  let config := mainConfig env.trafficModeLoadshare env.serviceIndSCCP env.hbInt env.hbTimer
  match env.resolveErr with
  | some err => ([.logFatalResolve err], .fatal)
  | none =>
      match env.listenErr with
      | some err => ([.listen config, .logFatalListen err], .fatal)
      | none =>
          ([.listen config, .logWaiting env.listenerAddr] ++ (acceptLoop env.accepts).1,
            (acceptLoop env.accepts).2)

/-! ## The process: the accept loop and the goroutines it starts -/

/-- A goroutine started by `go serve(conn)`: its connection and the number of
`conn.Read` outcomes delivered to it so far. -/
structure Session where
  conn : Conn
  delivered : Nat

/-- What a goroutine has done so far: `serve` over the outcomes delivered. -/
def Session.view (s : Session) : List Event × Status :=
  serve { s.conn with reads := s.conn.reads.take s.delivered }

/-- The state of the process once the listener is set up. -/
structure Proc where
  pending : List AcceptOutcome
  mainEvents : List MainEvent
  mainStatus : MainStatus
  sessions : List Session

/-- The process when `main` enters its accept loop. -/
def Proc.init (accepts : List AcceptOutcome) : Proc :=
  { pending := accepts, mainEvents := [], mainStatus := .accepting, sessions := [] }

/-- Who runs next: the accept loop, or the `i`-th goroutine started. -/
inductive Turn where
  | main
  | session (i : Nat)
  deriving DecidableEq, Repr

/-- Delivers one more read outcome to the `i`-th goroutine. -/
def deliver : Nat → List Session → List Session
  | _, [] => []
  | 0, s :: rest => { s with delivered := s.delivered + 1 } :: rest
  | i + 1, s :: rest => s :: deliver i rest

/-- One scheduling step. The accept loop takes the next outcome of
`listener.Accept` and runs one iteration; a goroutine receives its next read
outcome. Once `log.Fatalf` has exited the process nothing runs. -/
def Proc.step (p : Proc) : Turn → Proc
  | .main =>
      match p.mainStatus, p.pending with
      | .accepting, a :: rest =>
          match acceptIter a with
          | (evs, none) =>
              { p with pending := rest, mainEvents := p.mainEvents ++ evs, mainStatus := .fatal }
          | (evs, some c) =>
              { p with pending := rest, mainEvents := p.mainEvents ++ evs,
                       sessions := p.sessions ++ [{ conn := c, delivered := 0 }] }
      | _, _ => p
  | .session i =>
      if p.mainStatus = .fatal then p else { p with sessions := deliver i p.sessions }

/-- Runs a schedule. -/
def Proc.run (p : Proc) : List Turn → Proc
  | [] => p
  | t :: ts => (p.step t).run ts

/-! ## Observations on traces -/

/-- What a read outcome is apart from the bytes of the message: a success, or
the error of a failure. -/
def ReadOutcome.shape : ReadOutcome → Option ConnErr
  | .data _ => none
  | .fail err => some err

/-- A trace event with the contents of the messages read hidden: the log line
of a read is dropped and the length a read returns is blanked. -/
def observable : Event → Option Event
  | .read _ err => some (.read 0 err)
  | .logRead _ => none
  | ev => some ev

/-- The byte strings printed by the "Read: ..." log lines of a trace. -/
def loggedReads : List Event → List (List Nat)
  | [] => []
  | .logRead bytes :: evs => bytes :: loggedReads evs
  | _ :: evs => loggedReads evs

/-- The messages a script delivers before its first failing read. -/
def messagesRead : List ReadOutcome → List (List Nat)
  | .data bytes :: rs => bytes :: messagesRead rs
  | _ => []

/-- The operations on the connection itself: read, write and close. -/
def Event.onConn : Event → Bool
  | .read _ _ => true
  | .write _ _ => true
  | .close => true
  | _ => false

/-- The write operations. -/
def Event.isWrite : Event → Bool
  | .write _ _ => true
  | _ => false

/-- Events of an iteration whose read succeeded. -/
def Event.isExchange : Event → Bool
  | .read _ none => true
  | .logRead _ => true
  | .write _ _ => true
  | .logWriteFailed _ => true
  | _ => false

/-- The trace of the accept loop over successful accepts. -/
def acceptedEvents (cs : List Conn) : List MainEvent :=
  cs.flatMap (fun c => [.accepted c, .logConnected c.remoteAddr, .goServe c])

/-- The event of the call `conn.Read(buf)` that receives the outcome `r`, the
buffer having 1500 bytes. -/
def nextRead : ReadOutcome → Event
  | .data bytes => .read (min bytes.length 1500) none
  | .fail err => .read 0 (some err)

/-! ## Example connections -/

/-- A connection whose second write fails and whose peer then ends the session. -/
def peerEnds : Conn :=
  ⟨"10.0.0.1:2905", [.data [1, 2, 3], .data [4], .fail .eof],
    fun k => if k = 1 then some (.other "broken pipe") else none⟩

/-- A connection whose read fails with a transport error after one message. -/
def transportBreaks : Conn :=
  ⟨"10.0.0.1:2905", [.data [7, 7], .fail (.other "connection reset"), .data [1]],
    fun _ => none⟩

/-! ## Facts about the embedding -/

/-- Decoding the response literal gives no error. -/
theorem decode_data_ok : (DecodeString data).2 = none := by decide

set_option maxRecDepth 100000 in
/-- The response literal has an even number of bytes. -/
theorem data_even : (stringBytes data).length % 2 = 0 := by decide

set_option maxRecDepth 100000 in
/-- Every byte of the response literal is a hexadecimal digit. -/
theorem data_hex_digits : ∀ b ∈ stringBytes data, reverseHexTable b ≤ 0x0f := by decide

/-- One iteration of the loop on a failing read. -/
theorem serveLoop_fail (remote : String) (writes : Nat → Option ConnErr) (err : ConnErr)
    (rs : List ReadOutcome) (buf : List Nat) (w : Nat) :
    serveLoop remote writes (.fail err :: rs) buf w =
      ([.read 0 (some err), if err = ConnErr.eof then .logClosed remote else .logReadError err],
        .returned) := by
  simp only [serveLoop, connRead]
  split <;> rfl

/-- One iteration of the loop on a successful read: the read, its log line, the
write of the decoded literal, the log line of a failed write, then the rest of
the loop on the updated buffer. -/
theorem serveLoop_data (remote : String) (writes : Nat → Option ConnErr) (bytes : List Nat)
    (rs : List ReadOutcome) (buf : List Nat) (w : Nat) :
    serveLoop remote writes (.data bytes :: rs) buf w =
      andThen
        ([.read (min bytes.length buf.length) none,
          .logRead ((bytes.take buf.length ++ buf.drop bytes.length).take
            (min bytes.length buf.length)),
          .write (DecodeString data).1 (writes w)] ++
          (match writes w with
            | some err => [Event.logWriteFailed err]
            | none => []))
        (serveLoop remote writes rs (bytes.take buf.length ++ buf.drop bytes.length) (w + 1)) := by
  have h : DecodeString data = ((DecodeString data).1, none) :=
    Prod.ext rfl decode_data_ok
  simp only [serveLoop, connRead]
  generalize DecodeString data = d at h ⊢
  obtain ⟨msg, e⟩ := d
  simp only [Prod.mk.injEq] at h
  obtain ⟨-, rfl⟩ := h
  cases hw : writes w <;> simp [andThen]

/-- While every read succeeds the loop stays in the loop. -/
theorem serveLoop_data_status (remote : String) (writes : Nat → Option ConnErr)
    (msgs : List (List Nat)) :
    ∀ (buf : List Nat) (w : Nat),
      (serveLoop remote writes (msgs.map .data) buf w).2 = .blockedInRead := by
  induction msgs with
  | nil => intro buf w; rfl
  | cons m ms ih =>
      intro buf w
      rw [List.map_cons, serveLoop_data]
      exact ih _ _

/-- While every read succeeds the loop only reads, logs the read, writes and
logs a failed write. -/
theorem serveLoop_data_events (remote : String) (writes : Nat → Option ConnErr)
    (msgs : List (List Nat)) :
    ∀ (buf : List Nat) (w : Nat),
      ∀ ev ∈ (serveLoop remote writes (msgs.map .data) buf w).1, ev.isExchange = true := by
  induction msgs with
  | nil => intro buf w ev h; simp [serveLoop] at h
  | cons m ms ih =>
      intro buf w ev h
      rw [List.map_cons, serveLoop_data] at h
      simp only [andThen, List.mem_append, List.mem_cons, List.not_mem_nil, or_false] at h
      rcases h with ((h | h | h) | h) | h
      · subst h; rfl
      · subst h; rfl
      · subst h; rfl
      · cases hw : writes w with
        | none => rw [hw] at h; simp at h
        | some err =>
            rw [hw] at h
            simp only [List.mem_singleton, List.not_mem_nil, or_false] at h
            subst h; rfl
      · exact ih _ _ ev h

/-- The loop up to the first failing read: the iterations of the successful
reads, then the failing read and its log line. -/
theorem serveLoop_split (remote : String) (writes : Nat → Option ConnErr) (err : ConnErr)
    (rest : List ReadOutcome) (msgs : List (List Nat)) :
    ∀ (buf : List Nat) (w : Nat),
      serveLoop remote writes (msgs.map .data ++ .fail err :: rest) buf w =
        ((serveLoop remote writes (msgs.map .data) buf w).1 ++
          [.read 0 (some err),
            if err = ConnErr.eof then .logClosed remote else .logReadError err],
          .returned) := by
  induction msgs with
  | nil =>
      intro buf w
      rw [List.map_nil, List.nil_append, serveLoop_fail]
      rfl
  | cons m ms ih =>
      intro buf w
      rw [List.map_cons, List.cons_append, serveLoop_data, serveLoop_data, ih]
      simp [andThen]

/-- A script is a run of successful reads, followed or not by a failing read. -/
theorem reads_split (reads : List ReadOutcome) :
    (∃ msgs : List (List Nat), reads = msgs.map .data) ∨
      ∃ (msgs : List (List Nat)) (err : ConnErr) (rest : List ReadOutcome),
        reads = msgs.map .data ++ .fail err :: rest := by
  induction reads with
  | nil => exact Or.inl ⟨[], rfl⟩
  | cons r rs ih =>
      cases r with
      | fail err => exact Or.inr ⟨[], err, rs, rfl⟩
      | data bytes =>
          rcases ih with ⟨msgs, h⟩ | ⟨msgs, err, rest, h⟩
          · exact Or.inl ⟨bytes :: msgs, by simp [h]⟩
          · exact Or.inr ⟨bytes :: msgs, err, rest, by simp [h]⟩

/-- The run of `serve` over successful reads only: blocked in the next read,
nothing but exchanges done. -/
theorem serve_data (remote : String) (writes : Nat → Option ConnErr) (msgs : List (List Nat)) :
    serve ⟨remote, msgs.map .data, writes⟩ =
      ((serveLoop remote writes (msgs.map .data) (List.replicate 1500 0) 0).1,
        .blockedInRead) := by
  have h := serveLoop_data_status remote writes msgs (List.replicate 1500 0) 0
  unfold serve
  simp only
  generalize serveLoop remote writes (msgs.map .data) (List.replicate 1500 0) 0 = r at h ⊢
  obtain ⟨evs, st⟩ := r
  simp only at h
  subst h
  rfl

/-- The run of `serve` up to the first failing read. -/
theorem serve_split (remote : String) (writes : Nat → Option ConnErr) (err : ConnErr)
    (rest : List ReadOutcome) (msgs : List (List Nat)) :
    serve ⟨remote, msgs.map .data ++ .fail err :: rest, writes⟩ =
      ((serve ⟨remote, msgs.map .data, writes⟩).1 ++
        [.read 0 (some err),
          if err = ConnErr.eof then .logClosed remote else .logReadError err, .close],
        .returned) := by
  rw [serve_data]
  unfold serve
  simp only [serveLoop_split, List.append_assoc, List.cons_append, List.nil_append]

/-- No failing read is among successful reads. -/
theorem fail_not_mem_data (err : ConnErr) (msgs : List (List Nat)) :
    ReadOutcome.fail err ∉ msgs.map ReadOutcome.data := by
  simp

/-- The function `serve` returns exactly when some read fails. -/
theorem serve_returned_iff (c : Conn) :
    (serve c).2 = .returned ↔ ∃ err, ReadOutcome.fail err ∈ c.reads := by
  obtain ⟨remote, reads, writes⟩ := c
  rcases reads_split reads with ⟨msgs, rfl⟩ | ⟨msgs, err, rest, rfl⟩
  · rw [serve_data]
    simp
  · rw [serve_split]
    simp

/-- A run over successful reads only does not close the connection. -/
theorem close_not_mem_data (remote : String) (writes : Nat → Option ConnErr)
    (msgs : List (List Nat)) :
    Event.close ∉ (serve ⟨remote, msgs.map .data, writes⟩).1 := by
  intro h
  rw [serve_data] at h
  have := serveLoop_data_events remote writes msgs _ _ _ h
  simp [Event.isExchange] at this

/-- The read buffer keeps its length. -/
theorem buf_length (bytes buf : List Nat) :
    (bytes.take buf.length ++ buf.drop bytes.length).length = buf.length := by
  simp only [List.length_append, List.length_take, List.length_drop]
  omega

/-- The log line of a read prints the message, cut to the size of the buffer. -/
theorem buf_take (bytes buf : List Nat) :
    (bytes.take buf.length ++ buf.drop bytes.length).take (min bytes.length buf.length) =
      bytes.take buf.length := by
  have h : min bytes.length buf.length = (bytes.take buf.length).length := by
    rw [List.length_take, Nat.min_comm]
  rw [h, List.take_left]

/-- The loop treats two scripts of the same shape alike, whatever the buffers. -/
theorem serveLoop_observable (remote : String) (writes : Nat → Option ConnErr)
    (reads : List ReadOutcome) :
    ∀ (reads2 : List ReadOutcome) (buf buf2 : List Nat) (w : Nat),
      reads.map ReadOutcome.shape = reads2.map ReadOutcome.shape →
      (serveLoop remote writes reads buf w).1.filterMap observable =
        (serveLoop remote writes reads2 buf2 w).1.filterMap observable ∧
      (serveLoop remote writes reads buf w).2 = (serveLoop remote writes reads2 buf2 w).2 := by
  induction reads with
  | nil =>
      intro reads2 buf buf2 w h
      cases reads2 with
      | nil => exact ⟨rfl, rfl⟩
      | cons r rs => simp at h
  | cons r rs ih =>
      intro reads2 buf buf2 w h
      cases reads2 with
      | nil => simp at h
      | cons r2 rs2 =>
          simp only [List.map_cons, List.cons.injEq] at h
          obtain ⟨hr, hrs⟩ := h
          cases r with
          | fail err =>
              cases r2 with
              | data b2 => simp [ReadOutcome.shape] at hr
              | fail err2 =>
                  simp only [ReadOutcome.shape, Option.some.injEq] at hr
                  subst hr
                  simp only [serveLoop_fail, and_self]
          | data b =>
              cases r2 with
              | fail err2 => simp [ReadOutcome.shape] at hr
              | data b2 =>
                  obtain ⟨h1, h2⟩ := ih rs2 (b.take buf.length ++ buf.drop b.length)
                    (b2.take buf2.length ++ buf2.drop b2.length) (w + 1) hrs
                  rw [serveLoop_data, serveLoop_data]
                  simp only [andThen, List.filterMap_append, h1, h2, and_true]
                  simp [List.filterMap_cons, observable]

/-- The log lines of the reads of the loop print the messages read, each cut to
the size of the buffer. -/
theorem serveLoop_loggedReads (remote : String) (writes : Nat → Option ConnErr)
    (reads : List ReadOutcome) :
    ∀ (buf : List Nat) (w : Nat),
      loggedReads (serveLoop remote writes reads buf w).1 =
        (messagesRead reads).map (fun bytes => bytes.take buf.length) := by
  induction reads with
  | nil => intro buf w; rfl
  | cons r rs ih =>
      intro buf w
      cases r with
      | fail err =>
          rw [serveLoop_fail]
          split <;> rfl
      | data b =>
          rw [serveLoop_data, buf_take]
          have := ih (b.take buf.length ++ buf.drop b.length) (w + 1)
          rw [buf_length] at this
          cases hw : writes w <;>
            simp [andThen, loggedReads, messagesRead, this]

/-- The log lines of the reads in a trace followed by a close. -/
theorem loggedReads_close (evs : List Event) :
    loggedReads (evs ++ [.close]) = loggedReads evs := by
  induction evs with
  | nil => rfl
  | cons ev evs ih => cases ev <;> simp [loggedReads, ih]

/-- The operations on the connection while every read succeeds: a read and a
write of the decoded literal per message, in turn. -/
theorem serveLoop_onConn (remote : String) (writes : Nat → Option ConnErr)
    (msgs : List (List Nat)) :
    ∀ (buf : List Nat) (w : Nat),
      (serveLoop remote writes (msgs.map .data) buf w).1.filter Event.onConn =
        (msgs.enumFrom w).flatMap (fun im =>
          [.read (min im.2.length buf.length) none,
            .write (DecodeString data).1 (writes im.1)]) := by
  induction msgs with
  | nil => intro buf w; rfl
  | cons m ms ih =>
      intro buf w
      have := ih (m.take buf.length ++ buf.drop m.length) (w + 1)
      rw [buf_length] at this
      rw [List.map_cons, serveLoop_data]
      cases hw : writes w <;>
        simp [andThen, List.filter_cons, Event.onConn, List.enumFrom_cons, this, hw]

/-- The number of writes while every read succeeds: one per message. -/
theorem serveLoop_writes (remote : String) (writes : Nat → Option ConnErr)
    (msgs : List (List Nat)) :
    ∀ (buf : List Nat) (w : Nat),
      ((serveLoop remote writes (msgs.map .data) buf w).1.filter Event.isWrite).length =
        msgs.length := by
  induction msgs with
  | nil => intro buf w; rfl
  | cons m ms ih =>
      intro buf w
      rw [List.map_cons, serveLoop_data]
      cases hw : writes w <;>
        simp [andThen, List.filter_cons, Event.isWrite, ih]

/-- Delivering a read outcome to a goroutine changes no connection. -/
theorem deliver_conn (i : Nat) (ss : List Session) :
    (deliver i ss).map Session.conn = ss.map Session.conn := by
  induction ss generalizing i with
  | nil => cases i <;> rfl
  | cons s rest ih =>
      cases i with
      | zero => rfl
      | succ i => simp [deliver, ih]

/-- The accept loop up to the first failing accept. -/
theorem acceptLoop_split (cs : List Conn) (err : AcceptErr) (rest : List AcceptOutcome) :
    acceptLoop (cs.map .conn ++ .fail err :: rest) =
      (acceptedEvents cs ++ [.acceptFailed err, .logFatalAccept err], .fatal) := by
  induction cs with
  | nil => rfl
  | cons c cs ih =>
      rw [List.map_cons, List.cons_append, acceptLoop]
      simp only [acceptIter, ih]
      rfl

/-- The accept loop does not return. -/
theorem acceptLoop_not_returned (script : List AcceptOutcome) :
    (acceptLoop script).2 ≠ .returned := by
  induction script with
  | nil => simp [acceptLoop]
  | cons a rest ih =>
      cases a with
      | fail err => simp [acceptLoop, acceptIter]
      | conn c => simpa [acceptLoop, acceptIter] using ih

/-- The process under any schedule, as long as every accept succeeds: the
accept loop has taken as many connections as it had turns, each started as a
goroutine in accept order, and is still accepting. -/
theorem run_accepting (cs : List Conn) (ts : List Turn) :
    ∀ p : Proc, p.mainStatus = .accepting → p.pending = cs.map .conn →
      (p.run ts).mainStatus = .accepting ∧
      (p.run ts).sessions.map Session.conn =
        p.sessions.map Session.conn ++ cs.take (ts.count .main) ∧
      (p.run ts).mainEvents = p.mainEvents ++ acceptedEvents (cs.take (ts.count .main)) ∧
      (p.run ts).pending = (cs.drop (ts.count .main)).map .conn := by
  induction ts generalizing cs with
  | nil =>
      intro p hst hp
      simp [Proc.run, hst, hp, acceptedEvents]
  | cons t ts ih =>
      intro p hst hp
      cases t with
      | session i =>
          have hstep : p.step (.session i) = { p with sessions := deliver i p.sessions } := by
            simp [Proc.step, hst]
          have := ih cs (p.step (.session i)) (by rw [hstep]; exact hst) (by rw [hstep]; exact hp)
          rw [hstep] at this
          simpa [Proc.run, hstep, deliver_conn] using this
      | main =>
          cases cs with
          | nil =>
              have hstep : p.step .main = p := by
                simp [Proc.step, hst, hp]
              have := ih [] p hst hp
              simpa [Proc.run, hstep] using this
          | cons c cs =>
              have hstep : p.step .main =
                  { p with pending := cs.map .conn,
                           mainEvents := p.mainEvents ++
                             [.accepted c, .logConnected c.remoteAddr, .goServe c],
                           sessions := p.sessions ++ [{ conn := c, delivered := 0 }] } := by
                simp [Proc.step, hst, hp, acceptIter]
              have := ih cs (p.step .main) (by rw [hstep]; exact hst) (by rw [hstep])
              rw [hstep] at this
              simpa [Proc.run, hstep, acceptedEvents] using this

/-- Nothing runs once `log.Fatalf` has exited the process. -/
theorem run_fatal (ts : List Turn) :
    ∀ p : Proc, p.mainStatus = .fatal → p.run ts = p := by
  induction ts with
  | nil => intro p _; rfl
  | cons t ts ih =>
      intro p h
      have hstep : p.step t = p := by
        cases t <;> simp [Proc.step, h]
      rw [Proc.run, hstep]
      exact ih p h

/-- The accept loop over successful accepts: one accept, log line and
`go serve` per connection, then blocked in the next accept. -/
theorem acceptLoop_conns (cs : List Conn) :
    acceptLoop (cs.map .conn) = (acceptedEvents cs, .accepting) := by
  induction cs with
  | nil => rfl
  | cons c cs ih =>
      rw [List.map_cons, acceptLoop]
      simp only [acceptIter, ih]
      rfl

/-- The process agrees with the accept loop: when only the accept loop runs,
one turn per outcome of the listener, its trace and status are those of
`acceptLoop`. -/
theorem run_main_acceptLoop (script : List AcceptOutcome) :
    ∀ p : Proc, p.mainStatus = .accepting → p.pending = script →
      ((p.run (List.replicate script.length .main)).mainEvents =
          p.mainEvents ++ (acceptLoop script).1) ∧
      (p.run (List.replicate script.length .main)).mainStatus = (acceptLoop script).2 := by
  induction script with
  | nil =>
      intro p hst hp
      simp [Proc.run, acceptLoop, hst]
  | cons a rest ih =>
      intro p hst hp
      cases a with
      | fail err =>
          have hstep : p.step .main =
              { p with pending := rest,
                       mainEvents := p.mainEvents ++ [.acceptFailed err, .logFatalAccept err],
                       mainStatus := .fatal } := by
            simp [Proc.step, hst, hp, acceptIter]
          rw [List.length_cons, List.replicate_succ, Proc.run, run_fatal _ _ (by rw [hstep])]
          rw [hstep]
          simp [acceptLoop, acceptIter]
      | conn c =>
          have hstep : p.step .main =
              { p with pending := rest,
                       mainEvents := p.mainEvents ++
                         [.accepted c, .logConnected c.remoteAddr, .goServe c],
                       sessions := p.sessions ++ [{ conn := c, delivered := 0 }] } := by
            simp [Proc.step, hst, hp, acceptIter]
          have := ih (p.step .main) (by rw [hstep]; exact hst) (by rw [hstep])
          rw [hstep] at this
          rw [List.length_cons, List.replicate_succ, Proc.run, hstep]
          simpa [acceptLoop, acceptIter] using this

/-- The trace of `serve` is the trace of its loop, followed by the deferred
close when the loop has returned. -/
theorem serve_trace (c : Conn) :
    (serve c).1 =
      (serveLoop c.remoteAddr c.writes c.reads (List.replicate 1500 0) 0).1 ++
        (if (serveLoop c.remoteAddr c.writes c.reads (List.replicate 1500 0) 0).2 = .returned
          then [Event.close] else []) := by
  unfold serve
  generalize serveLoop c.remoteAddr c.writes c.reads (List.replicate 1500 0) 0 = r
  obtain ⟨evs, st⟩ := r
  cases st <;> simp

/-- The loop after a run of successful reads goes on with the rest of the
script, on a buffer of the same length and with one write made per read. -/
theorem serveLoop_append (remote : String) (writes : Nat → Option ConnErr)
    (rest : List ReadOutcome) (msgs : List (List Nat)) :
    ∀ (buf : List Nat) (w : Nat), ∃ buf2 : List Nat, buf2.length = buf.length ∧
      serveLoop remote writes (msgs.map .data ++ rest) buf w =
        ((serveLoop remote writes (msgs.map .data) buf w).1 ++
            (serveLoop remote writes rest buf2 (w + msgs.length)).1,
          (serveLoop remote writes rest buf2 (w + msgs.length)).2) := by
  induction msgs with
  | nil =>
      intro buf w
      exact ⟨buf, rfl, by simp [serveLoop]⟩
  | cons m ms ih =>
      intro buf w
      obtain ⟨buf2, hlen, h⟩ := ih (m.take buf.length ++ buf.drop m.length) (w + 1)
      refine ⟨buf2, by rw [hlen, buf_length], ?_⟩
      rw [List.map_cons, List.cons_append, serveLoop_data, serveLoop_data, h]
      have hw : w + 1 + ms.length = w + (m :: ms).length := by
        simp only [List.length_cons]; omega
      rw [hw]
      simp [andThen]

/-- The loop starts with the read that receives the first outcome. -/
theorem serveLoop_head (remote : String) (writes : Nat → Option ConnErr) (r : ReadOutcome)
    (rs : List ReadOutcome) (buf : List Nat) (w : Nat) (hbuf : buf.length = 1500) :
    ∃ tail, (serveLoop remote writes (r :: rs) buf w).1 = nextRead r :: tail := by
  cases r with
  | fail err =>
      rw [serveLoop_fail]
      exact ⟨_, rfl⟩
  | data bytes =>
      rw [serveLoop_data, hbuf]
      exact ⟨_, rfl⟩

set_option maxRecDepth 100000 in
/-- The run of `serve` on `peerEnds`, evaluated. -/
theorem serve_peerEnds :
    (serve peerEnds).1 =
      [.read 3 none, .logRead [1, 2, 3], .write (DecodeString data).1 none,
        .read 1 none, .logRead [4], .write (DecodeString data).1 (some (.other "broken pipe")),
        .logWriteFailed (.other "broken pipe"),
        .read 0 (some .eof), .logClosed "10.0.0.1:2905", .close] := by
  decide

/-! ## The message loop -/

/-- C1: when the first failing read returns `io.EOF`, `serve` returns normally;
its trace is the exchanges of the successful reads followed by exactly that
read, the log line "Closed M3UA conn with ..." and the deferred close, so no
write follows the read; the log line "Error reading from M3UA conn" never
appears. -/
theorem serve_eof_peer_ended (remote : String) (writes : Nat → Option ConnErr)
    (msgs : List (List Nat)) (rest : List ReadOutcome) :
    (serve ⟨remote, msgs.map .data ++ .fail .eof :: rest, writes⟩).2 = .returned ∧
    (serve ⟨remote, msgs.map .data ++ .fail .eof :: rest, writes⟩).1 =
      (serve ⟨remote, msgs.map .data, writes⟩).1 ++
        [.read 0 (some .eof), .logClosed remote, .close] ∧
    (∀ ev ∈ (serve ⟨remote, msgs.map .data, writes⟩).1, ev.isExchange = true) ∧
    (∀ err, Event.logReadError err ∉
      (serve ⟨remote, msgs.map .data ++ .fail .eof :: rest, writes⟩).1) := by
  have hex : ∀ ev ∈ (serve ⟨remote, msgs.map .data, writes⟩).1, ev.isExchange = true := by
    intro ev h
    rw [serve_data] at h
    exact serveLoop_data_events remote writes msgs _ _ _ h
  refine ⟨by rw [serve_split], by rw [serve_split]; simp, hex, ?_⟩
  intro err h
  rw [serve_split] at h
  simp only [List.mem_append, List.mem_cons, List.not_mem_nil, or_false, if_true] at h
  rcases h with h | h | h | h
  · have := hex _ h
    simp [Event.isExchange] at this
  · cases h
  · cases h
  · cases h

/-- C2: when the first failing read returns an error other than `io.EOF`,
`serve` returns normally; its trace is the exchanges of the successful reads
followed by exactly that read, the log line "Error reading from M3UA conn" with
that error and the deferred close, so no read and no write follows; the log
line "Closed M3UA conn with ..." never appears. -/
theorem serve_read_error_transport (remote : String) (writes : Nat → Option ConnErr)
    (msgs : List (List Nat)) (err : ConnErr) (rest : List ReadOutcome)
    (herr : err ≠ ConnErr.eof) :
    (serve ⟨remote, msgs.map .data ++ .fail err :: rest, writes⟩).2 = .returned ∧
    (serve ⟨remote, msgs.map .data ++ .fail err :: rest, writes⟩).1 =
      (serve ⟨remote, msgs.map .data, writes⟩).1 ++
        [.read 0 (some err), .logReadError err, .close] ∧
    (∀ ev ∈ (serve ⟨remote, msgs.map .data, writes⟩).1, ev.isExchange = true) ∧
    (∀ addr, Event.logClosed addr ∉
      (serve ⟨remote, msgs.map .data ++ .fail err :: rest, writes⟩).1) := by
  have hex : ∀ ev ∈ (serve ⟨remote, msgs.map .data, writes⟩).1, ev.isExchange = true := by
    intro ev h
    rw [serve_data] at h
    exact serveLoop_data_events remote writes msgs _ _ _ h
  refine ⟨by rw [serve_split], by rw [serve_split]; simp [herr], hex, ?_⟩
  intro addr h
  rw [serve_split] at h
  simp only [List.mem_append, List.mem_cons, List.not_mem_nil, or_false, if_neg herr] at h
  rcases h with h | h | h | h
  · have := hex _ h
    simp [Event.isExchange] at this
  · cases h
  · cases h
  · cases h

/-- Witness of C2 on a connection reset after one message. -/
theorem serve_read_error_transport_witness :
    ConnErr.other "connection reset" ≠ ConnErr.eof ∧
    (serve ⟨"10.0.0.1:2905",
        [[7, 7]].map .data ++ .fail (.other "connection reset") :: [.data [1]],
        fun _ => none⟩).2 = .returned :=
  ⟨by decide,
    (serve_read_error_transport "10.0.0.1:2905" (fun _ => none) [[7, 7]]
      (.other "connection reset") [.data [1]] (by decide)).1⟩

/-- C3: when the write that answers a successful read fails, the trace of
`serve` goes on, after the exchanges of the earlier reads, with that read, its
log line, the failed write and the log line "Failed to write M3UA data", and
what follows starts with the next read on the same connection (nothing follows
while the script has no further outcome): no close and no return comes in
between; and for every connection `serve` returns, and closes, exactly when
some read fails. -/
theorem write_failure_continues (remote : String) (writes : Nat → Option ConnErr)
    (msgs : List (List Nat)) (bytes : List Nat) (rs : List ReadOutcome) (err : ConnErr)
    (hw : writes msgs.length = some err) :
    (∃ tail,
      (serve ⟨remote, msgs.map .data ++ .data bytes :: rs, writes⟩).1 =
        (serve ⟨remote, msgs.map .data, writes⟩).1 ++
          [.read (min bytes.length 1500) none,
            .logRead (bytes.take 1500),
            .write (DecodeString data).1 (some err),
            .logWriteFailed err] ++ tail ∧
      tail.head? = rs.head?.map nextRead) ∧
    (∀ c : Conn, ((serve c).2 = .returned ↔ ∃ e, ReadOutcome.fail e ∈ c.reads) ∧
      (Event.close ∈ (serve c).1 ↔ ∃ e, ReadOutcome.fail e ∈ c.reads)) := by
  refine ⟨?_, fun c => ⟨serve_returned_iff c, ?_⟩⟩
  · obtain ⟨buf2, hlen, h⟩ := serveLoop_append remote writes (.data bytes :: rs) msgs
      (List.replicate 1500 0) 0
    rw [List.length_replicate] at hlen
    rw [serve_data, serve_trace]
    dsimp only
    generalize List.replicate 1500 0 = buf at h ⊢
    have hlen3 : (bytes.take 1500 ++ buf2.drop bytes.length).length = 1500 := by
      have := buf_length bytes buf2
      rwa [hlen] at this
    have htake : (bytes.take 1500 ++ buf2.drop bytes.length).take (min bytes.length 1500) =
        bytes.take 1500 := by
      have := buf_take bytes buf2
      rwa [hlen] at this
    simp only [h, serveLoop_data, Nat.zero_add, hw, hlen, htake, andThen]
    cases rs with
    | nil => exact ⟨[], by simp [serveLoop], rfl⟩
    | cons r rs =>
        obtain ⟨tail, ht⟩ := serveLoop_head remote writes r rs
          (bytes.take 1500 ++ buf2.drop bytes.length) (msgs.length + 1) hlen3
        refine ⟨nextRead r :: (tail ++
          (if (serveLoop remote writes (r :: rs) (bytes.take 1500 ++ buf2.drop bytes.length)
              (msgs.length + 1)).2 = .returned then [Event.close] else [])), ?_, rfl⟩
        rw [ht]
        simp
  · obtain ⟨remote, reads, writes⟩ := c
    rcases reads_split reads with ⟨msgs, rfl⟩ | ⟨msgs, e, rest, rfl⟩
    · constructor
      · intro h
        exact absurd h (close_not_mem_data remote writes msgs)
      · rintro ⟨e, he⟩
        exact absurd he (fail_not_mem_data e msgs)
    · constructor
      · intro _
        exact ⟨e, by simp⟩
      · intro _
        rw [serve_split]
        simp

/-- Witness of C3: the second write of `peerEnds` fails; the failure is logged
and the next operation is the read that finds the end of the stream. -/
theorem write_failure_continues_witness :
    peerEnds.writes [[1, 2, 3]].length = some (.other "broken pipe") ∧
    (∃ tail,
      (serve ⟨peerEnds.remoteAddr, [[1, 2, 3]].map .data ++ .data [4] :: [.fail .eof],
          peerEnds.writes⟩).1 =
        (serve ⟨peerEnds.remoteAddr, [[1, 2, 3]].map .data, peerEnds.writes⟩).1 ++
          [.read (min [4].length 1500) none,
            .logRead ([4].take 1500),
            .write (DecodeString data).1 (some (.other "broken pipe")),
            .logWriteFailed (.other "broken pipe")] ++ tail ∧
      tail.head? = [ReadOutcome.fail .eof].head?.map nextRead) ∧
    (serve peerEnds).1 =
      [.read 3 none, .logRead [1, 2, 3], .write (DecodeString data).1 none,
        .read 1 none, .logRead [4], .write (DecodeString data).1 (some (.other "broken pipe")),
        .logWriteFailed (.other "broken pipe"),
        .read 0 (some .eof), .logClosed "10.0.0.1:2905", .close] :=
  ⟨by decide,
    (write_failure_continues peerEnds.remoteAddr peerEnds.writes [[1, 2, 3]] [4] [.fail .eof]
      (.other "broken pipe") (by decide)).1,
    serve_peerEnds⟩

/-- C8: when some read of the script fails, `serve` returns and its trace is
a trace without a close followed by one close, so the connection is closed
exactly once and nothing is done on it afterwards; a run in which every read
succeeds does not close the connection and stays blocked in the next read. -/
theorem close_exactly_once (c : Conn) (h : ∃ err, ReadOutcome.fail err ∈ c.reads) :
    (serve c).2 = .returned ∧
    (∃ pre, (serve c).1 = pre ++ [.close] ∧ Event.close ∉ pre) ∧
    (serve c).1.count .close = 1 ∧
    (∀ (remote : String) (writes : Nat → Option ConnErr) (msgs : List (List Nat)),
      Event.close ∉ (serve ⟨remote, msgs.map .data, writes⟩).1 ∧
      (serve ⟨remote, msgs.map .data, writes⟩).2 = .blockedInRead) := by
  have hlast : ∃ pre, (serve c).1 = pre ++ [.close] ∧ Event.close ∉ pre := by
    obtain ⟨remote, reads, writes⟩ := c
    rcases reads_split reads with ⟨msgs, rfl⟩ | ⟨msgs, e, rest, rfl⟩
    · obtain ⟨e, he⟩ := h
      exact absurd he (fail_not_mem_data e msgs)
    · refine ⟨(serve ⟨remote, msgs.map .data, writes⟩).1 ++
        [.read 0 (some e), if e = ConnErr.eof then .logClosed remote else .logReadError e],
        by rw [serve_split]; simp, ?_⟩
      intro hmem
      simp only [List.mem_append, List.mem_cons, List.not_mem_nil, or_false] at hmem
      rcases hmem with hmem | hmem | hmem
      · exact close_not_mem_data remote writes msgs hmem
      · cases hmem
      · split at hmem <;> cases hmem
  refine ⟨(serve_returned_iff c).mpr h, hlast, ?_, ?_⟩
  · obtain ⟨pre, hpre, hnot⟩ := hlast
    rw [hpre, List.count_append, List.count_eq_zero_of_not_mem hnot]
    simp
  · intro remote writes msgs
    refine ⟨close_not_mem_data remote writes msgs, ?_⟩
    rw [serve_data]

/-- Witness of C8 on `transportBreaks`. -/
theorem close_exactly_once_witness :
    (∃ err, ReadOutcome.fail err ∈ transportBreaks.reads) ∧
    (serve transportBreaks).1.count .close = 1 :=
  ⟨⟨.other "connection reset", by decide⟩,
    (close_exactly_once transportBreaks ⟨.other "connection reset", by decide⟩).2.2.1⟩

/-- C9: two connections with the same remote address and write results whose
read outcomes agree on success or failure and on the error, whatever the bytes
and lengths of the messages, give the same trace once the contents of the
messages read are hidden (same writes of the same payload, same termination
log line, same close) and the same status; the "Read: ..." log lines print the
messages read, each cut to the 1500 bytes of the buffer. -/
theorem serve_ignores_contents (c c2 : Conn) (hremote : c.remoteAddr = c2.remoteAddr)
    (hwrites : c.writes = c2.writes)
    (hshape : c.reads.map ReadOutcome.shape = c2.reads.map ReadOutcome.shape) :
    (serve c).1.filterMap observable = (serve c2).1.filterMap observable ∧
    (serve c).2 = (serve c2).2 ∧
    loggedReads (serve c).1 = (messagesRead c.reads).map (fun bytes => bytes.take 1500) ∧
    loggedReads (serve c2).1 = (messagesRead c2.reads).map (fun bytes => bytes.take 1500) := by
  have hlog : ∀ d : Conn,
      loggedReads (serve d).1 = (messagesRead d.reads).map (fun bytes => bytes.take 1500) := by
    intro d
    have h := serveLoop_loggedReads d.remoteAddr d.writes d.reads (List.replicate 1500 0) 0
    rw [List.length_replicate] at h
    unfold serve
    generalize serveLoop d.remoteAddr d.writes d.reads (List.replicate 1500 0) 0 = r at h ⊢
    obtain ⟨evs, st⟩ := r
    cases st
    · simpa [loggedReads_close] using h
    · simpa using h
  obtain ⟨h1, h2⟩ := serveLoop_observable c.remoteAddr c.writes c.reads c2.reads
    (List.replicate 1500 0) (List.replicate 1500 0) 0 hshape
  rw [hremote, hwrites] at h1 h2
  refine ⟨?_, ?_, hlog c, hlog c2⟩
  · unfold serve
    rw [hremote, hwrites]
    generalize serveLoop c2.remoteAddr c2.writes c.reads (List.replicate 1500 0) 0 = r at h1 h2 ⊢
    generalize serveLoop c2.remoteAddr c2.writes c2.reads (List.replicate 1500 0) 0 = r2
      at h1 h2 ⊢
    obtain ⟨evs, st⟩ := r
    obtain ⟨evs2, st2⟩ := r2
    simp only at h1 h2
    subst h2
    cases st <;> simp [List.filterMap_append, h1]
  · unfold serve
    rw [hremote, hwrites]
    generalize serveLoop c2.remoteAddr c2.writes c.reads (List.replicate 1500 0) 0 = r at h1 h2 ⊢
    generalize serveLoop c2.remoteAddr c2.writes c2.reads (List.replicate 1500 0) 0 = r2
      at h1 h2 ⊢
    obtain ⟨evs, st⟩ := r
    obtain ⟨evs2, st2⟩ := r2
    simp only at h1 h2
    subst h2
    cases st <;> rfl

/-- Witness of C9: a message of three bytes against a message of five. -/
theorem serve_ignores_contents_witness :
    (serve ⟨"10.0.0.1:2905", [.data [1, 2, 3], .fail .eof], fun _ => none⟩).1.filterMap
        observable =
      (serve ⟨"10.0.0.1:2905", [.data [9, 8, 7, 6, 5], .fail .eof], fun _ => none⟩).1.filterMap
        observable :=
  (serve_ignores_contents
    ⟨"10.0.0.1:2905", [.data [1, 2, 3], .fail .eof], fun _ => none⟩
    ⟨"10.0.0.1:2905", [.data [9, 8, 7, 6, 5], .fail .eof], fun _ => none⟩
    rfl rfl (by decide)).1

/-- C10: the response literal has an even number of bytes, all of them
hexadecimal digits, and `hex.DecodeString` returns no error on it, so the
`continue` branch is never taken; in a run with `k` successful reads before the
first failing read the operations on the connection are, in turn, each read
followed by a write of the decoded literal, then the failing read and the
close: exactly `k` writes, all of the same payload. -/
theorem fixed_response_after_each_read (remote : String) (writes : Nat → Option ConnErr)
    (msgs : List (List Nat)) (err : ConnErr) (rest : List ReadOutcome) :
    (stringBytes data).length % 2 = 0 ∧
    (∀ b ∈ stringBytes data, reverseHexTable b ≤ 0x0f) ∧
    (DecodeString data).2 = none ∧
    (serve ⟨remote, msgs.map .data ++ .fail err :: rest, writes⟩).1.filter Event.onConn =
      msgs.enum.flatMap (fun im =>
          [Event.read (min im.2.length 1500) none,
            Event.write (DecodeString data).1 (writes im.1)]) ++
        [.read 0 (some err), .close] ∧
    ((serve ⟨remote, msgs.map .data ++ .fail err :: rest, writes⟩).1.filter
      Event.isWrite).length = msgs.length := by
  refine ⟨data_even, data_hex_digits, decode_data_ok, ?_, ?_⟩
  · have h := serveLoop_onConn remote writes msgs (List.replicate 1500 0) 0
    rw [List.length_replicate] at h
    rw [serve_split, serve_data]
    simp only [List.filter_append, h, List.enum]
    split <;> simp [List.filter_cons, Event.onConn]
  · have h := serveLoop_writes remote writes msgs (List.replicate 1500 0) 0
    rw [serve_split, serve_data]
    simp only [List.filter_append, List.length_append, h]
    split <;> simp [List.filter_cons, Event.isWrite]

/-! ## The accept loop -/

/-- C4: over successful accepts the accept loop does, per connection and in
accept order, the accept, the log line and one `go serve`, and is then blocked
in the next accept; and under every schedule of the process, whatever the
scripts of the connections accepted (end of stream, read errors, write
errors) and however far their goroutines have run, the accept loop is still
accepting, it has taken one connection per turn it had, it has started exactly
these connections as goroutines, in accept order, and its trace consists of
their accept, log line and `go serve`. -/
theorem accept_loop_independent (cs : List Conn) (ts : List Turn) :
    acceptLoop (cs.map .conn) =
      (cs.flatMap (fun c => [.accepted c, .logConnected c.remoteAddr, .goServe c]),
        .accepting) ∧
    ((Proc.init (cs.map .conn)).run ts).mainStatus = .accepting ∧
    ((Proc.init (cs.map .conn)).run ts).sessions.map Session.conn =
      cs.take (ts.count .main) ∧
    ((Proc.init (cs.map .conn)).run ts).mainEvents =
      (cs.take (ts.count .main)).flatMap
        (fun c => [.accepted c, .logConnected c.remoteAddr, .goServe c]) ∧
    ((Proc.init (cs.map .conn)).run ts).pending = (cs.drop (ts.count .main)).map .conn := by
  have h := run_accepting cs ts (Proc.init (cs.map .conn)) rfl rfl
  refine ⟨acceptLoop_conns cs, ?_⟩
  simpa [Proc.init, acceptedEvents] using h

/-- Counterexample to C5: an accept that fails with `Cancelled` ends the loop
through `log.Fatalf`, not by a normal return. -/
theorem cancelled_accept_is_fatal :
    (acceptLoop [.fail .cancelled]).2 = .fatal ∧
    (acceptLoop [.fail .cancelled]).2 ≠ .returned := by
  decide

/-- C5, amended: whatever the error of the first failing accept, `Cancelled`
included, the loop logs it through `log.Fatalf` and the process terminates;
the accept loop never returns normally. -/
theorem accept_error_always_fatal (cs : List Conn) (err : AcceptErr)
    (rest : List AcceptOutcome) :
    (acceptLoop (cs.map .conn ++ .fail err :: rest)).2 = .fatal ∧
    (∃ evs, (acceptLoop (cs.map .conn ++ .fail err :: rest)).1 =
      evs ++ [.logFatalAccept err]) ∧
    (∀ script : List AcceptOutcome, (acceptLoop script).2 ≠ .returned) := by
  refine ⟨by rw [acceptLoop_split], ⟨acceptedEvents cs ++ [.acceptFailed err], ?_⟩,
    acceptLoop_not_returned⟩
  rw [acceptLoop_split]
  simp

/-- C6: when an accept fails with `TransportFailure`, the trace of the accept
loop is that of the connections accepted before, then the failed accept and
`log.Fatalf`; the process has terminated: whatever outcomes the listener had
left, nothing is accepted, no goroutine is started for the failed accept, and
no turn of the schedule changes the process. -/
theorem transport_failure_terminates (cs : List Conn) (msg : String)
    (rest : List AcceptOutcome) (evs : List MainEvent) (ss : List Session) (t : Turn) :
    acceptLoop (cs.map .conn ++ .fail (.transportFailure msg) :: rest) =
      (cs.flatMap (fun c => [.accepted c, .logConnected c.remoteAddr, .goServe c]) ++
        [.acceptFailed (.transportFailure msg), .logFatalAccept (.transportFailure msg)],
        .fatal) ∧
    (acceptIter (.fail (.transportFailure msg))).2 = none ∧
    ({ pending := rest, mainEvents := evs, mainStatus := .fatal, sessions := ss } : Proc).step t =
      { pending := rest, mainEvents := evs, mainStatus := .fatal, sessions := ss } := by
  refine ⟨acceptLoop_split cs _ rest, rfl, ?_⟩
  cases t <;> simp [Proc.step]

/-! ## The configuration -/

end M3uaServer

